/-
Verification of the joint/chain transform engine of graphics/graphics_robot.py.

The development shallowly embeds the geometric state of a joint (class
DefaultJoint and its variants) and of a robot chain (class Robot) over exact
real arithmetic.  The vpython vector primitives used by the source (vector
arithmetic, cross product, magnitude scaling, rotation about an axis) are
embedded as the corresponding operations on a three component real vector;
vpython rotation is the standard right hand Rodrigues rotation about the
normalized axis direction, which is what vpython implements.
-/
import Mathlib

noncomputable section

/-- A vpython 3d vector: three real components. -/
@[ext]
structure Vec3 where
  x : ℝ
  y : ℝ
  z : ℝ

instance : Add Vec3 := ⟨fun a b => ⟨a.x + b.x, a.y + b.y, a.z + b.z⟩⟩

instance : Sub Vec3 := ⟨fun a b => ⟨a.x - b.x, a.y - b.y, a.z - b.z⟩⟩

instance : SMul ℝ Vec3 := ⟨fun c v => ⟨c * v.x, c * v.y, c * v.z⟩⟩

@[simp] theorem Vec3.add_x (a b : Vec3) : (a + b).x = a.x + b.x := rfl

@[simp] theorem Vec3.add_y (a b : Vec3) : (a + b).y = a.y + b.y := rfl

@[simp] theorem Vec3.add_z (a b : Vec3) : (a + b).z = a.z + b.z := rfl

@[simp] theorem Vec3.sub_x (a b : Vec3) : (a - b).x = a.x - b.x := rfl

@[simp] theorem Vec3.sub_y (a b : Vec3) : (a - b).y = a.y - b.y := rfl

@[simp] theorem Vec3.sub_z (a b : Vec3) : (a - b).z = a.z - b.z := rfl

@[simp] theorem Vec3.smul_x (c : ℝ) (v : Vec3) : (c • v).x = c * v.x := rfl

@[simp] theorem Vec3.smul_y (c : ℝ) (v : Vec3) : (c • v).y = c * v.y := rfl

@[simp] theorem Vec3.smul_z (c : ℝ) (v : Vec3) : (c • v).z = c * v.z := rfl

instance : DecidableEq Vec3 := Classical.decEq _

/-- The vpython dot product. -/
def dotv (a b : Vec3) : ℝ := a.x * b.x + a.y * b.y + a.z * b.z

/-- The vpython cross product. -/
def crossv (a b : Vec3) : Vec3 :=
  ⟨a.y * b.z - a.z * b.y, a.z * b.x - a.x * b.z, a.x * b.y - a.y * b.x⟩

/-- The vpython magnitude of a vector. -/
def mag (v : Vec3) : ℝ := Real.sqrt (dotv v v)

/-- Setting the vpython mag attribute: rescale the vector to the given
magnitude, keeping its direction. -/
def withMag (L : ℝ) (v : Vec3) : Vec3 := (L / mag v) • v

/-- The vpython norm (unit vector in the same direction). -/
def vnorm (v : Vec3) : Vec3 := (1 / mag v) • v

/-- The vpython rotation of a vector about the direction of the axis vector
by the given angle: the right hand Rodrigues rotation about the normalized
axis. -/
def rotateVec (angle : ℝ) (k v : Vec3) : Vec3 :=
  (Real.cos angle) • v + (Real.sin angle) • (crossv (vnorm k) v)
    + ((dotv (vnorm k) v) * (1 - Real.cos angle)) • (vnorm k)

/-- Rotation of a point about the axis direction passing through a pivot
point, as vpython object rotation with an explicit origin does. -/
def rotateAbout (angle : ℝ) (k pivot p : Vec3) : Vec3 :=
  pivot + rotateVec angle k (p - pivot)

/-- Modelled from the spec: `wrap_to_pi` is imported by the source from
graphics/common_functions.py, which is not under src/.  The spec states that
all angle wrap operations are total functions over the reals, reducing an
angle modulo 2*pi into the interval (-pi, pi].  This definition returns the
unique representative of that class: the result differs from the input by an
integer multiple of 2*pi and lies in (-pi, pi]. -/
def wrap_to_pi (angle : ℝ) : ℝ :=
  angle - 2 * Real.pi * ⌈(angle - Real.pi) / (2 * Real.pi)⌉

theorem wrap_to_pi_mem (a : ℝ) :
    -Real.pi < wrap_to_pi a ∧ wrap_to_pi a ≤ Real.pi := by
  unfold wrap_to_pi
  have h2 : (0 : ℝ) < 2 * Real.pi := Real.two_pi_pos
  have hle : (a - Real.pi) / (2 * Real.pi) ≤ (⌈(a - Real.pi) / (2 * Real.pi)⌉ : ℝ) :=
    Int.le_ceil _
  have hlt : ((⌈(a - Real.pi) / (2 * Real.pi)⌉ : ℤ) : ℝ) < (a - Real.pi) / (2 * Real.pi) + 1 :=
    Int.ceil_lt_add_one _
  constructor
  · have h1 : ((⌈(a - Real.pi) / (2 * Real.pi)⌉ : ℤ) : ℝ) - 1 < (a - Real.pi) / (2 * Real.pi) := by
      linarith
    have h1m : (((⌈(a - Real.pi) / (2 * Real.pi)⌉ : ℤ) : ℝ) - 1) * (2 * Real.pi) < a - Real.pi :=
      (lt_div_iff₀ h2).mp h1
    nlinarith
  · have hm : a - Real.pi ≤ ((⌈(a - Real.pi) / (2 * Real.pi)⌉ : ℤ) : ℝ) * (2 * Real.pi) :=
      (div_le_iff₀ h2).mp hle
    nlinarith

theorem wrap_to_pi_eq_self (a : ℝ) (h1 : -Real.pi < a) (h2 : a ≤ Real.pi) :
    wrap_to_pi a = a := by
  unfold wrap_to_pi
  have hpi : (0 : ℝ) < 2 * Real.pi := Real.two_pi_pos
  have hc : ⌈(a - Real.pi) / (2 * Real.pi)⌉ = 0 := by
    rw [Int.ceil_eq_iff]
    constructor
    · push_cast
      rw [lt_div_iff₀ hpi]
      nlinarith
    · push_cast
      rw [div_le_iff₀ hpi]
      nlinarith
  rw [hc]
  push_cast
  ring

theorem wrap_to_pi_idem (a : ℝ) : wrap_to_pi (wrap_to_pi a) = wrap_to_pi a :=
  wrap_to_pi_eq_self _ (wrap_to_pi_mem a).1 (wrap_to_pi_mem a).2

theorem wrap_to_pi_zero : wrap_to_pi 0 = 0 :=
  wrap_to_pi_eq_self 0 (by linarith [Real.pi_pos]) (le_of_lt Real.pi_pos)

theorem wrap_to_pi_sub_int (a : ℝ) (n : ℤ) :
    wrap_to_pi (a - 2 * Real.pi * n) = wrap_to_pi a := by
  unfold wrap_to_pi
  have hpi : Real.pi ≠ 0 := ne_of_gt Real.pi_pos
  have harg : (a - 2 * Real.pi * n - Real.pi) / (2 * Real.pi)
      = (a - Real.pi) / (2 * Real.pi) - n := by
    field_simp
    ring
  rw [harg, Int.ceil_sub_int]
  push_cast
  ring

theorem wrap_to_pi_add_wrap (b c : ℝ) :
    wrap_to_pi (c + wrap_to_pi (b - c)) = wrap_to_pi b := by
  have h : c + wrap_to_pi (b - c)
      = b - 2 * Real.pi * (⌈(b - c - Real.pi) / (2 * Real.pi)⌉ : ℤ) := by
    unfold wrap_to_pi
    ring
  rw [h, wrap_to_pi_sub_int]

theorem dotv_self_nonneg (v : Vec3) : 0 ≤ dotv v v :=
  add_nonneg (add_nonneg (mul_self_nonneg v.x) (mul_self_nonneg v.y)) (mul_self_nonneg v.z)

theorem mag_nonneg (v : Vec3) : 0 ≤ mag v := Real.sqrt_nonneg _

theorem dotv_self_pos (v : Vec3) (h : v ≠ ⟨0, 0, 0⟩) : 0 < dotv v v := by
  rcases v with ⟨a, b, c⟩
  have hd : 0 ≤ a * a + b * b + c * c :=
    add_nonneg (add_nonneg (mul_self_nonneg a) (mul_self_nonneg b)) (mul_self_nonneg c)
  rcases eq_or_lt_of_le hd with he | hlt
  · exfalso
    have ha : a = 0 := mul_self_eq_zero.mp
      (le_antisymm (by linarith [mul_self_nonneg b, mul_self_nonneg c]) (mul_self_nonneg a))
    have hb : b = 0 := mul_self_eq_zero.mp
      (le_antisymm (by linarith [mul_self_nonneg a, mul_self_nonneg c]) (mul_self_nonneg b))
    have hcz : c = 0 := mul_self_eq_zero.mp
      (le_antisymm (by linarith [mul_self_nonneg a, mul_self_nonneg b]) (mul_self_nonneg c))
    exact h (by simp [ha, hb, hcz])
  · simpa [dotv] using hlt

theorem mag_pos (v : Vec3) (h : v ≠ ⟨0, 0, 0⟩) : 0 < mag v :=
  Real.sqrt_pos.mpr (dotv_self_pos v h)

theorem mag_zero_vec : mag (⟨0, 0, 0⟩ : Vec3) = 0 := by
  simp [mag, dotv]

theorem mag_smul (c : ℝ) (v : Vec3) : mag (c • v) = |c| * mag v := by
  unfold mag
  have h : dotv (c • v) (c • v) = c ^ 2 * dotv v v := by
    simp only [dotv, Vec3.smul_x, Vec3.smul_y, Vec3.smul_z]
    ring
  rw [h, Real.sqrt_mul (sq_nonneg c), Real.sqrt_sq_eq_abs]

theorem mag_withMag (L : ℝ) (v : Vec3) (hL : 0 ≤ L) (hv : v ≠ ⟨0, 0, 0⟩) :
    mag (withMag L v) = L := by
  unfold withMag
  rw [mag_smul, abs_of_nonneg (div_nonneg hL (mag_nonneg v)),
    div_mul_cancel₀ _ (ne_of_gt (mag_pos v hv))]

theorem dotv_smul_smul (c d : ℝ) (u v : Vec3) :
    dotv (c • u) (d • v) = c * d * dotv u v := by
  simp only [dotv, Vec3.smul_x, Vec3.smul_y, Vec3.smul_z]
  ring

theorem dotv_smul_right (c : ℝ) (u v : Vec3) : dotv u (c • v) = c * dotv u v := by
  simp only [dotv, Vec3.smul_x, Vec3.smul_y, Vec3.smul_z]
  ring

theorem dotv_crossv_left (a b : Vec3) : dotv a (crossv a b) = 0 := by
  simp only [dotv, crossv]
  ring

theorem dotv_crossv_right (a b : Vec3) : dotv b (crossv a b) = 0 := by
  simp only [dotv, crossv]
  ring

theorem dotv_crossv_self (a b : Vec3) :
    dotv (crossv a b) (crossv a b) = dotv a a * dotv b b - dotv a b * dotv a b := by
  simp only [dotv, crossv]
  ring

/--
The geometric state of one joint, the shallow embedding of class DefaultJoint.
The fields follow the attributes of the Python object:
connect_from and connect_to are the private connection points,
dir_pos, dir_axis and dir_visible embed the hidden tracking arrow
connect_dir (its pos and axis attributes),
x_vector, y_vector, z_vector are the reference frame axes,
x_rotation, y_rotation, z_rotation the accumulated per axis angles,
g_pos, g_axis, g_up, g_visible the pose of the graphic object,
ref_pos, ref_axis, ref_up, ref_visible the pose of the reference frame
graphic, visible the joint visibility flag, and length the fixed link length.
-/
structure Joint where
  connect_from : Vec3
  connect_to : Vec3
  dir_pos : Vec3
  dir_axis : Vec3
  dir_visible : Bool
  x_vector : Vec3
  y_vector : Vec3
  z_vector : Vec3
  x_rotation : ℝ
  y_rotation : ℝ
  z_rotation : ℝ
  g_pos : Vec3
  g_axis : Vec3
  g_up : Vec3
  g_visible : Bool
  ref_pos : Vec3
  ref_axis : Vec3
  ref_up : Vec3
  ref_visible : Bool
  visible : Bool
  length : ℝ

/-- DefaultJoint.draw_reference_frame.  After construction the reference
frame graphic always exists, so the None branches of the source cannot
trigger; in the visible branch the source only updates pos, axis and up of
the existing graphic and notably does not set its visible flag back to
True. -/
def draw_reference_frame (st : Joint) (is_visible : Bool) : Joint :=
  if is_visible = false then
    { st with ref_visible := false, ref_pos := st.connect_to,
              ref_axis := st.x_vector, ref_up := st.y_vector }
  else
    { st with ref_pos := st.connect_to, ref_axis := st.x_vector,
              ref_up := st.y_vector }

/-- DefaultJoint.__draw_graphic: push the current pose to the graphic. -/
def draw_graphic (st : Joint) : Joint :=
  { st with g_pos := st.connect_from, g_axis := st.x_vector, g_up := st.y_vector }

/-- DefaultJoint.__update_reference_frame.  The source aliases the x and y
vectors with the graphic axis and up attributes before rescaling them, so
the rescale is also visible on the graphic pose; the direction of every
vector is unchanged by the rescale. -/
def update_reference_frame (st : Joint) : Joint :=
  let xv := withMag st.length st.g_axis
  let yv := withMag st.length st.g_up
  let zv := withMag st.length (crossv xv yv)
  { st with x_vector := xv, y_vector := yv, z_vector := zv,
            g_axis := xv, g_up := yv }

/-- DefaultJoint.update_position: translate origin, tip and the tracking
arrow by the movement vector, then redraw the reference frame (it always
exists after construction) and the graphic. -/
def update_position (st : Joint) (new_pos : Vec3) : Joint :=
  let axes_movement := new_pos - st.connect_from
  let st1 := { st with connect_from := st.connect_from + axes_movement,
                       connect_to := st.connect_to + axes_movement,
                       dir_pos := st.dir_pos + axes_movement }
  let st2 := draw_reference_frame st1 st1.ref_visible
  draw_graphic st2

/-- The axis selection of DefaultJoint.update_orientation: the branch on the
three principal unit vectors picks the matching frame vector as the rotation
axis, any other argument falls through to the y branch. -/
def orientation_rotation_axis (st : Joint) (axis_of_rotation : Vec3) : Vec3 :=
  if axis_of_rotation = (⟨1, 0, 0⟩ : Vec3) then st.x_vector
  else if axis_of_rotation = (⟨0, 1, 0⟩ : Vec3) then st.y_vector
  else if axis_of_rotation = (⟨0, 0, 1⟩ : Vec3) then st.z_vector
  else st.y_vector

/-- The accumulated angle update of DefaultJoint.update_orientation: the
matching accumulated rotation field receives the wrapped sum, any
non principal axis falls through to the y branch. -/
def orientation_fields_update (st : Joint) (angle_of_rotation : ℝ)
    (axis_of_rotation : Vec3) : Joint :=
  if axis_of_rotation = (⟨1, 0, 0⟩ : Vec3) then
    { st with x_rotation := wrap_to_pi (st.x_rotation + angle_of_rotation) }
  else if axis_of_rotation = (⟨0, 1, 0⟩ : Vec3) then
    { st with y_rotation := wrap_to_pi (st.y_rotation + angle_of_rotation) }
  else if axis_of_rotation = (⟨0, 0, 1⟩ : Vec3) then
    { st with z_rotation := wrap_to_pi (st.z_rotation + angle_of_rotation) }
  else
    { st with y_rotation := wrap_to_pi (st.y_rotation + angle_of_rotation) }

/-- DefaultJoint.update_orientation: select the rotation axis and update the
wrapped accumulated angle, rotate the graphic about the axis direction
through connect_from, recompute the reference frame from the rotated
graphic, rotate the tracking arrow about its own position, recompute
connect_to as arrow pos plus arrow axis, then redraw the reference frame
and the graphic. -/
def update_orientation (st : Joint) (angle_of_rotation : ℝ)
    (axis_of_rotation : Vec3) : Joint :=
  let rotation_axis := orientation_rotation_axis st axis_of_rotation
  let st1 := orientation_fields_update st angle_of_rotation axis_of_rotation
  let st2 := { st1 with
    g_pos := rotateAbout angle_of_rotation rotation_axis st1.connect_from st1.g_pos,
    g_axis := rotateVec angle_of_rotation rotation_axis st1.g_axis,
    g_up := rotateVec angle_of_rotation rotation_axis st1.g_up }
  let st3 := update_reference_frame st2
  let st4 := { st3 with dir_axis := rotateVec angle_of_rotation rotation_axis st3.dir_axis }
  let st5 := { st4 with connect_to := st4.dir_pos + st4.dir_axis }
  let st6 := draw_reference_frame st5 st5.ref_visible
  draw_graphic st6

/-- DefaultJoint.set_joint_visibility: only acts when the requested flag
differs from the current one. -/
def set_joint_visibility (st : Joint) (is_visible : Bool) : Joint :=
  if is_visible ≠ st.visible then
    { st with g_visible := is_visible, ref_visible := is_visible,
              visible := is_visible }
  else st

/-- DefaultJoint.get_connection_to_pos. -/
def get_connection_to_pos (st : Joint) : Vec3 := st.connect_to

/-- DefaultJoint.get_rotation_angle: the accumulated angle of the matching
principal axis, with the y angle as the fallback for any other argument. -/
def get_rotation_angle (st : Joint) (axis : Vec3) : ℝ :=
  if axis = (⟨1, 0, 0⟩ : Vec3) then st.x_rotation
  else if axis = (⟨0, 1, 0⟩ : Vec3) then st.y_rotation
  else if axis = (⟨0, 0, 1⟩ : Vec3) then st.z_rotation
  else st.y_rotation

/-- DefaultJoint.__init__ with the auto generated box graphic (no graphic
object argument).  The tracking arrow starts at the origin pointing to the
tip; the accumulated rotations start at zero; the default compound graphic
has axis (1,0,0) and the vpython default up (0,1,0); the link length is the
largest bounding dimension of the box, whose size is (mag(tip-origin), 0.1,
0.1); finally the reference frame vectors are computed by
update_reference_frame.  The y_vector and z_vector placeholders and the
graphic position are immediately overwritten or never read back by the
embedded operations; the reference frame graphic produced by the external
draw_reference_frame_axes helper is modelled as a visible frame at the tip. -/
def mkDefaultJoint (connection_from_prev_seg connection_to_next_seg axis : Vec3) :
    Joint :=
  update_reference_frame
    { connect_from := connection_from_prev_seg
      connect_to := connection_to_next_seg
      dir_pos := connection_from_prev_seg
      dir_axis := connection_to_next_seg - connection_from_prev_seg
      dir_visible := false
      x_vector := axis
      y_vector := ⟨0, 0, 0⟩
      z_vector := ⟨0, 0, 0⟩
      x_rotation := 0
      y_rotation := 0
      z_rotation := 0
      g_pos := ⟨0, 0, 0⟩
      g_axis := ⟨1, 0, 0⟩
      g_up := ⟨0, 1, 0⟩
      g_visible := true
      ref_pos := connection_to_next_seg
      ref_axis := axis
      ref_up := ⟨0, 1, 0⟩
      ref_visible := true
      visible := true
      length := max (max (mag (connection_to_next_seg - connection_from_prev_seg)) 0.1) 0.1 }

/-- Class RotationalJoint: a joint together with its fixed rotation axis. -/
structure RotationalJoint where
  joint : Joint
  rotation_axis : Vec3

/-- RotationalJoint.rotate_joint: wrap the target angle, read the current
accumulated angle about the rotation axis, apply the wrapped difference as a
relative reorientation. -/
def RotationalJoint.rotate_joint (rj : RotationalJoint) (new_angle : ℝ) :
    RotationalJoint :=
  let na := wrap_to_pi new_angle
  let current_angle := get_rotation_angle rj.joint rj.rotation_axis
  let angle_diff := wrap_to_pi (na - current_angle)
  { rj with joint := update_orientation rj.joint angle_diff rj.rotation_axis }

/-- The internal delta computed by RotationalJoint.rotate_joint before the
reorientation call (lines 250 to 253 of the source). -/
def rotate_joint_delta (rj : RotationalJoint) (new_angle : ℝ) : ℝ :=
  wrap_to_pi (wrap_to_pi new_angle - get_rotation_angle rj.joint rj.rotation_axis)

/-- StaticJoint.rotate_joint is pass: no state change. -/
def StaticJoint.rotate_joint (st : Joint) (new_angle : ℝ) : Joint := st

/-- Gripper.rotate_joint is pass: no state change. -/
def Gripper.rotate_joint (st : Joint) (new_angle : ℝ) : Joint := st

/-- PrismaticJoint.rotate_joint is pass: no state change. -/
def PrismaticJoint.rotate_joint (st : Joint) (new_angle : ℝ) : Joint := st

/-- Class Robot: the ordered chain of joints, the joint count and the whole
chain visibility flag. -/
structure Robot where
  joints : List Joint
  num_joints : ℕ
  is_shown : Bool

/-- The loop body of Robot.__position_joints from index 1 on: each joint is
repositioned onto the tooltip of the already repositioned previous joint. -/
def position_from (prev : Joint) : List Joint → List Joint
  | [] => []
  | j :: rest =>
    update_position j (get_connection_to_pos prev)
      :: position_from (update_position j (get_connection_to_pos prev)) rest

/-- Robot.__position_joints: the first joint is left in place, every later
joint is moved onto the tooltip of its predecessor, base to tip. -/
def position_joints : List Joint → List Joint
  | [] => []
  | j :: rest => j :: position_from j rest

/-- Robot.__init__: store the joints and the count, mark the chain shown,
then __create_robot runs the positioning pass over the stored joints. -/
def mkRobot (joints : List Joint) : Robot :=
  { joints := position_joints joints
    num_joints := joints.length
    is_shown := true }

/-- Robot.set_robot_visibility: when the flag differs, iterate over the
joints; the per joint visibility update and the write to is_shown both sit
inside the loop body, so with no joints nothing at all is written. -/
def set_robot_visibility (r : Robot) (is_visible : Bool) : Robot :=
  if is_visible ≠ r.is_shown then
    r.joints.foldl
      (fun acc j =>
        { joints := acc.joints ++ [set_joint_visibility j is_visible]
          num_joints := acc.num_joints
          is_shown := is_visible })
      { joints := [], num_joints := r.num_joints, is_shown := r.is_shown }
  else r

/-- Robot.set_reference_visibility: unconditionally broadcast to every
joint. -/
def set_reference_visibility (r : Robot) (is_visible : Bool) : Robot :=
  { r with joints := r.joints.map (fun j => draw_reference_frame j is_visible) }

@[simp] theorem draw_reference_frame_connect_from (st : Joint) (b : Bool) :
    (draw_reference_frame st b).connect_from = st.connect_from := by
  unfold draw_reference_frame
  split <;> rfl

@[simp] theorem draw_reference_frame_connect_to (st : Joint) (b : Bool) :
    (draw_reference_frame st b).connect_to = st.connect_to := by
  unfold draw_reference_frame
  split <;> rfl

@[simp] theorem draw_reference_frame_dir_pos (st : Joint) (b : Bool) :
    (draw_reference_frame st b).dir_pos = st.dir_pos := by
  unfold draw_reference_frame
  split <;> rfl

@[simp] theorem draw_reference_frame_dir_axis (st : Joint) (b : Bool) :
    (draw_reference_frame st b).dir_axis = st.dir_axis := by
  unfold draw_reference_frame
  split <;> rfl

@[simp] theorem draw_reference_frame_x_vector (st : Joint) (b : Bool) :
    (draw_reference_frame st b).x_vector = st.x_vector := by
  unfold draw_reference_frame
  split <;> rfl

@[simp] theorem draw_reference_frame_y_vector (st : Joint) (b : Bool) :
    (draw_reference_frame st b).y_vector = st.y_vector := by
  unfold draw_reference_frame
  split <;> rfl

@[simp] theorem draw_reference_frame_z_vector (st : Joint) (b : Bool) :
    (draw_reference_frame st b).z_vector = st.z_vector := by
  unfold draw_reference_frame
  split <;> rfl

@[simp] theorem draw_reference_frame_x_rotation (st : Joint) (b : Bool) :
    (draw_reference_frame st b).x_rotation = st.x_rotation := by
  unfold draw_reference_frame
  split <;> rfl

@[simp] theorem draw_reference_frame_y_rotation (st : Joint) (b : Bool) :
    (draw_reference_frame st b).y_rotation = st.y_rotation := by
  unfold draw_reference_frame
  split <;> rfl

@[simp] theorem draw_reference_frame_z_rotation (st : Joint) (b : Bool) :
    (draw_reference_frame st b).z_rotation = st.z_rotation := by
  unfold draw_reference_frame
  split <;> rfl

@[simp] theorem draw_reference_frame_length (st : Joint) (b : Bool) :
    (draw_reference_frame st b).length = st.length := by
  unfold draw_reference_frame
  split <;> rfl

@[simp] theorem draw_reference_frame_visible (st : Joint) (b : Bool) :
    (draw_reference_frame st b).visible = st.visible := by
  unfold draw_reference_frame
  split <;> rfl

@[simp] theorem orientation_fields_update_connect_from (st : Joint) (a : ℝ) (ax : Vec3) :
    (orientation_fields_update st a ax).connect_from = st.connect_from := by
  unfold orientation_fields_update
  repeat' split
  all_goals rfl

@[simp] theorem orientation_fields_update_connect_to (st : Joint) (a : ℝ) (ax : Vec3) :
    (orientation_fields_update st a ax).connect_to = st.connect_to := by
  unfold orientation_fields_update
  repeat' split
  all_goals rfl

@[simp] theorem orientation_fields_update_dir_pos (st : Joint) (a : ℝ) (ax : Vec3) :
    (orientation_fields_update st a ax).dir_pos = st.dir_pos := by
  unfold orientation_fields_update
  repeat' split
  all_goals rfl

@[simp] theorem orientation_fields_update_dir_axis (st : Joint) (a : ℝ) (ax : Vec3) :
    (orientation_fields_update st a ax).dir_axis = st.dir_axis := by
  unfold orientation_fields_update
  repeat' split
  all_goals rfl

@[simp] theorem orientation_fields_update_x_vector (st : Joint) (a : ℝ) (ax : Vec3) :
    (orientation_fields_update st a ax).x_vector = st.x_vector := by
  unfold orientation_fields_update
  repeat' split
  all_goals rfl

@[simp] theorem orientation_fields_update_y_vector (st : Joint) (a : ℝ) (ax : Vec3) :
    (orientation_fields_update st a ax).y_vector = st.y_vector := by
  unfold orientation_fields_update
  repeat' split
  all_goals rfl

@[simp] theorem orientation_fields_update_z_vector (st : Joint) (a : ℝ) (ax : Vec3) :
    (orientation_fields_update st a ax).z_vector = st.z_vector := by
  unfold orientation_fields_update
  repeat' split
  all_goals rfl

@[simp] theorem orientation_fields_update_g_pos (st : Joint) (a : ℝ) (ax : Vec3) :
    (orientation_fields_update st a ax).g_pos = st.g_pos := by
  unfold orientation_fields_update
  repeat' split
  all_goals rfl

@[simp] theorem orientation_fields_update_g_axis (st : Joint) (a : ℝ) (ax : Vec3) :
    (orientation_fields_update st a ax).g_axis = st.g_axis := by
  unfold orientation_fields_update
  repeat' split
  all_goals rfl

@[simp] theorem orientation_fields_update_g_up (st : Joint) (a : ℝ) (ax : Vec3) :
    (orientation_fields_update st a ax).g_up = st.g_up := by
  unfold orientation_fields_update
  repeat' split
  all_goals rfl

@[simp] theorem orientation_fields_update_ref_visible (st : Joint) (a : ℝ) (ax : Vec3) :
    (orientation_fields_update st a ax).ref_visible = st.ref_visible := by
  unfold orientation_fields_update
  repeat' split
  all_goals rfl

@[simp] theorem orientation_fields_update_length (st : Joint) (a : ℝ) (ax : Vec3) :
    (orientation_fields_update st a ax).length = st.length := by
  unfold orientation_fields_update
  repeat' split
  all_goals rfl

@[simp] theorem orientation_fields_update_visible (st : Joint) (a : ℝ) (ax : Vec3) :
    (orientation_fields_update st a ax).visible = st.visible := by
  unfold orientation_fields_update
  repeat' split
  all_goals rfl

@[simp] theorem set_joint_visibility_x_rotation (st : Joint) (b : Bool) :
    (set_joint_visibility st b).x_rotation = st.x_rotation := by
  unfold set_joint_visibility
  split <;> rfl

@[simp] theorem set_joint_visibility_y_rotation (st : Joint) (b : Bool) :
    (set_joint_visibility st b).y_rotation = st.y_rotation := by
  unfold set_joint_visibility
  split <;> rfl

@[simp] theorem set_joint_visibility_z_rotation (st : Joint) (b : Bool) :
    (set_joint_visibility st b).z_rotation = st.z_rotation := by
  unfold set_joint_visibility
  split <;> rfl

theorem update_orientation_connect_from (st : Joint) (a : ℝ) (ax : Vec3) :
    (update_orientation st a ax).connect_from = st.connect_from := by
  simp [update_orientation, draw_graphic, update_reference_frame]

theorem update_orientation_connect_to (st : Joint) (a : ℝ) (ax : Vec3) :
    (update_orientation st a ax).connect_to
      = st.dir_pos + rotateVec a (orientation_rotation_axis st ax) st.dir_axis := by
  simp [update_orientation, draw_graphic, update_reference_frame]

theorem update_position_connect_from (st : Joint) (p : Vec3) :
    (update_position st p).connect_from = p := by
  simp only [update_position, draw_graphic, draw_reference_frame_connect_from]
  ext <;> simp

theorem get_rotation_angle_update_orientation (st : Joint) (d : ℝ) (ax : Vec3) :
    get_rotation_angle (update_orientation st d ax) ax
      = wrap_to_pi (get_rotation_angle st ax + d) := by
  by_cases h1 : ax = (⟨1, 0, 0⟩ : Vec3)
  · subst h1
    simp [get_rotation_angle, update_orientation, orientation_fields_update,
      draw_graphic, update_reference_frame]
  · by_cases h2 : ax = (⟨0, 1, 0⟩ : Vec3)
    · subst h2
      simp [get_rotation_angle, update_orientation, orientation_fields_update,
        draw_graphic, update_reference_frame, h1]
    · by_cases h3 : ax = (⟨0, 0, 1⟩ : Vec3)
      · subst h3
        simp [get_rotation_angle, update_orientation, orientation_fields_update,
          draw_graphic, update_reference_frame, h1, h2]
      · simp [get_rotation_angle, update_orientation, orientation_fields_update,
          draw_graphic, update_reference_frame, h1, h2, h3]

/-- The axis frame invariant of the spec: the three frame vectors are
pairwise orthogonal and each has magnitude equal to the joint length. -/
def frameOrthogonal (st : Joint) : Prop :=
  dotv st.x_vector st.y_vector = 0 ∧ dotv st.y_vector st.z_vector = 0 ∧
  dotv st.x_vector st.z_vector = 0 ∧ mag st.x_vector = st.length ∧
  mag st.y_vector = st.length ∧ mag st.z_vector = st.length

theorem update_reference_frame_frameOrthogonal (st : Joint)
    (hax : st.g_axis ≠ ⟨0, 0, 0⟩) (hup : st.g_up ≠ ⟨0, 0, 0⟩)
    (horth : dotv st.g_axis st.g_up = 0) (hlen : 0 < st.length) :
    frameOrthogonal (update_reference_frame st) := by
  have hxy : dotv (withMag st.length st.g_axis) (withMag st.length st.g_up) = 0 := by
    unfold withMag
    rw [dotv_smul_smul, horth, mul_zero]
  have hmagx : mag (withMag st.length st.g_axis) = st.length :=
    mag_withMag _ _ hlen.le hax
  have hmagy : mag (withMag st.length st.g_up) = st.length :=
    mag_withMag _ _ hlen.le hup
  have hxne : withMag st.length st.g_axis ≠ ⟨0, 0, 0⟩ := by
    intro h0
    rw [h0, mag_zero_vec] at hmagx
    exact absurd hmagx.symm (ne_of_gt hlen)
  have hyne : withMag st.length st.g_up ≠ ⟨0, 0, 0⟩ := by
    intro h0
    rw [h0, mag_zero_vec] at hmagy
    exact absurd hmagy.symm (ne_of_gt hlen)
  have hcne : crossv (withMag st.length st.g_axis) (withMag st.length st.g_up)
      ≠ ⟨0, 0, 0⟩ := by
    intro h0
    have hpos : 0 < dotv (crossv (withMag st.length st.g_axis) (withMag st.length st.g_up))
        (crossv (withMag st.length st.g_axis) (withMag st.length st.g_up)) := by
      rw [dotv_crossv_self, hxy]
      have p1 := dotv_self_pos _ hxne
      have p2 := dotv_self_pos _ hyne
      nlinarith
    rw [h0] at hpos
    simp [dotv] at hpos
  have hmagz : mag (withMag st.length
      (crossv (withMag st.length st.g_axis) (withMag st.length st.g_up))) = st.length :=
    mag_withMag _ _ hlen.le hcne
  have hyz : dotv (withMag st.length st.g_up)
      (withMag st.length (crossv (withMag st.length st.g_axis) (withMag st.length st.g_up))) = 0 := by
    unfold withMag
    rw [dotv_smul_right]
    have hz := dotv_crossv_right (((st.length / mag st.g_axis) • st.g_axis))
      ((st.length / mag st.g_up) • st.g_up)
    simp only [withMag] at hz ⊢
    rw [hz, mul_zero]
  have hxz : dotv (withMag st.length st.g_axis)
      (withMag st.length (crossv (withMag st.length st.g_axis) (withMag st.length st.g_up))) = 0 := by
    unfold withMag
    rw [dotv_smul_right]
    have hz := dotv_crossv_left (((st.length / mag st.g_axis) • st.g_axis))
      ((st.length / mag st.g_up) • st.g_up)
    simp only [withMag] at hz ⊢
    rw [hz, mul_zero]
  refine ⟨?_, ?_, ?_, ?_, ?_, ?_⟩ <;>
    simp only [update_reference_frame] <;>
    first
      | exact hxy
      | exact hyz
      | exact hxz
      | exact hmagx
      | exact hmagy
      | exact hmagz

/-- The wrapped angle invariant of the spec: each accumulated rotation lies
in the interval (-pi, pi]. -/
def rotationsWrapped (st : Joint) : Prop :=
  (-Real.pi < st.x_rotation ∧ st.x_rotation ≤ Real.pi) ∧
  (-Real.pi < st.y_rotation ∧ st.y_rotation ≤ Real.pi) ∧
  (-Real.pi < st.z_rotation ∧ st.z_rotation ≤ Real.pi)

theorem update_orientation_rotationsWrapped (st : Joint) (a : ℝ) (ax : Vec3)
    (h : rotationsWrapped st) :
    rotationsWrapped (update_orientation st a ax) := by
  obtain ⟨hx, hy, hz⟩ := h
  by_cases h1 : ax = (⟨1, 0, 0⟩ : Vec3)
  · subst h1
    refine ⟨?_, ?_, ?_⟩ <;>
      simp [update_orientation, orientation_fields_update, draw_graphic,
        update_reference_frame, wrap_to_pi_mem, hx, hy, hz]
  · by_cases h2 : ax = (⟨0, 1, 0⟩ : Vec3)
    · subst h2
      refine ⟨?_, ?_, ?_⟩ <;>
        simp [update_orientation, orientation_fields_update, draw_graphic,
          update_reference_frame, wrap_to_pi_mem, hx, hy, hz, h1]
    · by_cases h3 : ax = (⟨0, 0, 1⟩ : Vec3)
      · subst h3
        refine ⟨?_, ?_, ?_⟩ <;>
          simp [update_orientation, orientation_fields_update, draw_graphic,
            update_reference_frame, wrap_to_pi_mem, hx, hy, hz, h1, h2]
      · refine ⟨?_, ?_, ?_⟩ <;>
          simp [update_orientation, orientation_fields_update, draw_graphic,
            update_reference_frame, wrap_to_pi_mem, hx, hy, hz, h1, h2, h3]

/-- A concrete joint state used as an evaluation point: a unit link along
the world x axis with the canonical frame. -/
def plainJoint : Joint :=
  { connect_from := ⟨0, 0, 0⟩
    connect_to := ⟨1, 0, 0⟩
    dir_pos := ⟨0, 0, 0⟩
    dir_axis := ⟨1, 0, 0⟩
    dir_visible := false
    x_vector := ⟨1, 0, 0⟩
    y_vector := ⟨0, 1, 0⟩
    z_vector := ⟨0, 0, 1⟩
    x_rotation := 0
    y_rotation := 0
    z_rotation := 0
    g_pos := ⟨0, 0, 0⟩
    g_axis := ⟨1, 0, 0⟩
    g_up := ⟨0, 1, 0⟩
    g_visible := true
    ref_pos := ⟨1, 0, 0⟩
    ref_axis := ⟨1, 0, 0⟩
    ref_up := ⟨0, 1, 0⟩
    ref_visible := true
    visible := true
    length := 1 }

/-- The two joint chain scenario joint of the spec: origin (0,0,0), tip
(1,0,0), default x axis, default generated graphic. -/
def joint0 : Joint := mkDefaultJoint ⟨0, 0, 0⟩ ⟨1, 0, 0⟩ ⟨1, 0, 0⟩

theorem mkDefaultJoint_connect_from (o t ax : Vec3) :
    (mkDefaultJoint o t ax).connect_from = o := by
  simp [mkDefaultJoint, update_reference_frame]

theorem mkDefaultJoint_connect_to (o t ax : Vec3) :
    (mkDefaultJoint o t ax).connect_to = t := by
  simp [mkDefaultJoint, update_reference_frame]

theorem mkDefaultJoint_dir_pos (o t ax : Vec3) :
    (mkDefaultJoint o t ax).dir_pos = o := by
  simp [mkDefaultJoint, update_reference_frame]

theorem mkDefaultJoint_dir_axis (o t ax : Vec3) :
    (mkDefaultJoint o t ax).dir_axis = t - o := by
  simp [mkDefaultJoint, update_reference_frame]

theorem sub_zero_vec : (⟨1, 0, 0⟩ : Vec3) - ⟨0, 0, 0⟩ = ⟨1, 0, 0⟩ := by
  ext <;> simp

theorem mag_unit_x : mag (⟨1, 0, 0⟩ : Vec3) = 1 := by
  unfold mag
  rw [show dotv (⟨1, 0, 0⟩ : Vec3) ⟨1, 0, 0⟩ = 1 from by norm_num [dotv]]
  exact Real.sqrt_one

theorem mag_unit_y : mag (⟨0, 1, 0⟩ : Vec3) = 1 := by
  unfold mag
  rw [show dotv (⟨0, 1, 0⟩ : Vec3) ⟨0, 1, 0⟩ = 1 from by norm_num [dotv]]
  exact Real.sqrt_one

theorem joint0_length : joint0.length = 1 := by
  simp only [joint0, mkDefaultJoint, update_reference_frame]
  rw [sub_zero_vec, mag_unit_x,
    max_eq_left (by norm_num : (0.1 : ℝ) ≤ 1),
    max_eq_left (by norm_num : (0.1 : ℝ) ≤ 1)]

theorem joint0_y_vector : joint0.y_vector = ⟨0, 1, 0⟩ := by
  simp only [joint0, mkDefaultJoint, update_reference_frame]
  rw [sub_zero_vec, mag_unit_x,
    max_eq_left (by norm_num : (0.1 : ℝ) ≤ 1),
    max_eq_left (by norm_num : (0.1 : ℝ) ≤ 1)]
  unfold withMag
  rw [mag_unit_y]
  ext <;> simp

theorem joint0_dir_pos : joint0.dir_pos = ⟨0, 0, 0⟩ :=
  mkDefaultJoint_dir_pos _ _ _

theorem joint0_dir_axis : joint0.dir_axis = ⟨1, 0, 0⟩ := by
  rw [joint0, mkDefaultJoint_dir_axis, sub_zero_vec]

theorem rotate_quarter_turn_y :
    rotateVec (Real.pi / 2) ⟨0, 1, 0⟩ ⟨1, 0, 0⟩ = ⟨0, 0, -1⟩ := by
  unfold rotateVec vnorm
  rw [mag_unit_y]
  ext <;>
    simp [crossv, dotv, Real.cos_pi_div_two, Real.sin_pi_div_two]

theorem y_axis_not_x_axis : ¬((⟨0, 1, 0⟩ : Vec3) = (⟨1, 0, 0⟩ : Vec3)) := by
  simp [Vec3.mk.injEq]

theorem orientation_rotation_axis_joint0 :
    orientation_rotation_axis joint0 ⟨0, 1, 0⟩ = ⟨0, 1, 0⟩ := by
  rw [orientation_rotation_axis, if_neg y_axis_not_x_axis, if_pos rfl,
    joint0_y_vector]

theorem position_from_chain (rest : List Joint) :
    ∀ prev : Joint,
      List.Chain' (fun a b => b.connect_from = get_connection_to_pos a)
        (prev :: position_from prev rest) := by
  induction rest with
  | nil =>
    intro prev
    simp [position_from]
  | cons j rest ih =>
    intro prev
    show List.Chain' _ (prev :: update_position j (get_connection_to_pos prev)
      :: position_from (update_position j (get_connection_to_pos prev)) rest)
    rw [List.chain'_cons]
    exact ⟨update_position_connect_from j (get_connection_to_pos prev), ih _⟩

theorem rotate_joint_get (rj : RotationalJoint) (θ : ℝ) :
    get_rotation_angle (rj.rotate_joint θ).joint rj.rotation_axis
      = wrap_to_pi θ := by
  show get_rotation_angle
    (update_orientation rj.joint
      (wrap_to_pi (wrap_to_pi θ - get_rotation_angle rj.joint rj.rotation_axis))
      rj.rotation_axis) rj.rotation_axis = wrap_to_pi θ
  rw [get_rotation_angle_update_orientation, wrap_to_pi_add_wrap]
  exact wrap_to_pi_idem θ

/-- C1 (counterexample): the contiguity claim fails after a reposition call
on a joint of a constructed two joint chain.  The chain is built from two
default joints spanning (0,0,0) to (1,0,0); the caller then repositions the
second joint to (5,5,5).  Robot only runs its positioning pass at
construction, so nothing re-glues the chain and the origin of joint 1 no
longer equals the tip of joint 0 before control returns to the caller. -/
theorem chain_contiguity_fails_after_reposition :
    (update_position ((mkRobot [joint0, joint0]).joints.getD 1 plainJoint)
        ⟨5, 5, 5⟩).connect_from
      ≠ get_connection_to_pos ((mkRobot [joint0, joint0]).joints.getD 0 plainJoint) := by
  have hjs : (mkRobot [joint0, joint0]).joints
      = [joint0, update_position joint0 (get_connection_to_pos joint0)] := by
    simp [mkRobot, position_joints, position_from]
  rw [hjs]
  simp only [List.getD_cons_succ, List.getD_cons_zero]
  rw [update_position_connect_from]
  simp only [get_connection_to_pos, joint0, mkDefaultJoint_connect_to]
  norm_num [Vec3.mk.injEq]

/-- C1 (amended): after chain construction the contiguity invariant holds:
for every list of joints, consecutive joints of the constructed Robot chain
satisfy joints[i].origin = joints[i-1].tip for every i > 0.  The original
claim also asserted contiguity after any reorient or reposition call on a
joint; the code never re-runs the positioning pass after construction, so
that part fails (see the counterexample) and is dropped here. -/
theorem chain_contiguous_after_construction (js : List Joint) :
    List.Chain' (fun a b => b.connect_from = get_connection_to_pos a)
      (mkRobot js).joints := by
  cases js with
  | nil => simp [mkRobot, position_joints]
  | cons j rest =>
    simp only [mkRobot, position_joints]
    exact position_from_chain rest j

/-- C2: for every RotationalJoint and target angle, rotate_joint followed by
get_rotation_angle on the rotation axis reads back wrap(theta) regardless of
the prior accumulated angle; calling rotate_joint with the same angle a
second time computes an internal delta of exactly 0 and the accumulated
angle still reads wrap(theta). -/
theorem rotational_joint_delta_correct (rj : RotationalJoint) (θ : ℝ) :
    get_rotation_angle (rj.rotate_joint θ).joint rj.rotation_axis = wrap_to_pi θ ∧
    rotate_joint_delta (rj.rotate_joint θ) θ = 0 ∧
    get_rotation_angle ((rj.rotate_joint θ).rotate_joint θ).joint rj.rotation_axis
      = wrap_to_pi θ := by
  have haxis : (rj.rotate_joint θ).rotation_axis = rj.rotation_axis := rfl
  have h1 := rotate_joint_get rj θ
  refine ⟨h1, ?_, ?_⟩
  · unfold rotate_joint_delta
    rw [haxis, h1, sub_self, wrap_to_pi_zero]
  · have h2 := rotate_joint_get (rj.rotate_joint θ) θ
    rw [haxis] at h2
    exact h2

/-- C3: for the default joint with origin (0,0,0) and tip (1,0,0), a
reorientation by pi/2 about the y axis pivots at the origin (which is
unchanged) and moves the tip to exactly (0,0,-1) under the right hand
rotation convention. -/
theorem reorient_quarter_turn_scenario :
    (update_orientation joint0 (Real.pi / 2) ⟨0, 1, 0⟩).connect_from = ⟨0, 0, 0⟩ ∧
    (update_orientation joint0 (Real.pi / 2) ⟨0, 1, 0⟩).connect_to = ⟨0, 0, -1⟩ := by
  constructor
  · rw [update_orientation_connect_from, joint0, mkDefaultJoint_connect_from]
  · rw [update_orientation_connect_to, orientation_rotation_axis_joint0,
      joint0_dir_pos, joint0_dir_axis, rotate_quarter_turn_y]
    ext <;> simp

/-- C4: after every call to update_reference_frame on a state whose graphic
axis and up vectors are nonzero and orthogonal (as they are in every state
the code produces) and whose length is positive, the three frame vectors
are pairwise orthogonal and each has magnitude equal to the joint length;
in particular the invariant holds after construction, where the default
graphic starts with axis (1,0,0), up (0,1,0) and length at least 0.1. -/
theorem axis_frame_invariant :
    (∀ st : Joint, st.g_axis ≠ ⟨0, 0, 0⟩ → st.g_up ≠ ⟨0, 0, 0⟩ →
      dotv st.g_axis st.g_up = 0 → 0 < st.length →
      frameOrthogonal (update_reference_frame st)) ∧
    (∀ o t ax : Vec3, frameOrthogonal (mkDefaultJoint o t ax)) := by
  refine ⟨fun st h1 h2 h3 h4 =>
    update_reference_frame_frameOrthogonal st h1 h2 h3 h4, ?_⟩
  intro o t ax
  rw [mkDefaultJoint]
  apply update_reference_frame_frameOrthogonal
  · show (⟨1, 0, 0⟩ : Vec3) ≠ ⟨0, 0, 0⟩
    norm_num [Vec3.mk.injEq]
  · show (⟨0, 1, 0⟩ : Vec3) ≠ ⟨0, 0, 0⟩
    norm_num [Vec3.mk.injEq]
  · show dotv ⟨1, 0, 0⟩ ⟨0, 1, 0⟩ = 0
    norm_num [dotv]
  · show (0 : ℝ) < max (max (mag (t - o)) 0.1) 0.1
    exact lt_of_lt_of_le (by norm_num) (le_max_right _ _)

/-- Witness for C4: the hypotheses hold and the conclusion follows at the
concrete state plainJoint. -/
theorem axis_frame_invariant_witness :
    (plainJoint.g_axis ≠ ⟨0, 0, 0⟩ ∧ plainJoint.g_up ≠ ⟨0, 0, 0⟩ ∧
      dotv plainJoint.g_axis plainJoint.g_up = 0 ∧ 0 < plainJoint.length) ∧
    frameOrthogonal (update_reference_frame plainJoint) := by
  have h1 : plainJoint.g_axis ≠ ⟨0, 0, 0⟩ := by
    norm_num [plainJoint, Vec3.mk.injEq]
  have h2 : plainJoint.g_up ≠ ⟨0, 0, 0⟩ := by
    norm_num [plainJoint, Vec3.mk.injEq]
  have h3 : dotv plainJoint.g_axis plainJoint.g_up = 0 := by
    norm_num [plainJoint, dotv]
  have h4 : (0 : ℝ) < plainJoint.length := by
    norm_num [plainJoint]
  exact ⟨⟨h1, h2, h3, h4⟩, axis_frame_invariant.1 plainJoint h1 h2 h3 h4⟩

/-- C5: for every axis argument different from the three principal unit
vectors, update_orientation and get_rotation_angle are total (the embedding
is a function, nothing is raised) and behave exactly as if the axis were
the y axis. -/
theorem invalid_axis_falls_back_to_y (st : Joint) (a : ℝ) (axis : Vec3)
    (h1 : axis ≠ ⟨1, 0, 0⟩) (h2 : axis ≠ ⟨0, 1, 0⟩) (h3 : axis ≠ ⟨0, 0, 1⟩) :
    update_orientation st a axis = update_orientation st a ⟨0, 1, 0⟩ ∧
    get_rotation_angle st axis = get_rotation_angle st ⟨0, 1, 0⟩ := by
  have hy1 : ¬((⟨0, 1, 0⟩ : Vec3) = ⟨1, 0, 0⟩) := y_axis_not_x_axis
  constructor
  · simp [update_orientation, orientation_rotation_axis,
      orientation_fields_update, h1, h2, h3, hy1]
  · simp [get_rotation_angle, h1, h2, h3, hy1]

/-- Witness for C5: the fallback theorem applied at the concrete non
principal axis (1,1,0) and the concrete state plainJoint. -/
theorem invalid_axis_falls_back_to_y_witness :
    ((⟨1, 1, 0⟩ : Vec3) ≠ ⟨1, 0, 0⟩ ∧ (⟨1, 1, 0⟩ : Vec3) ≠ ⟨0, 1, 0⟩ ∧
      (⟨1, 1, 0⟩ : Vec3) ≠ ⟨0, 0, 1⟩) ∧
    (update_orientation plainJoint 1 ⟨1, 1, 0⟩
        = update_orientation plainJoint 1 ⟨0, 1, 0⟩ ∧
      get_rotation_angle plainJoint ⟨1, 1, 0⟩
        = get_rotation_angle plainJoint ⟨0, 1, 0⟩) := by
  have h1 : (⟨1, 1, 0⟩ : Vec3) ≠ ⟨1, 0, 0⟩ := by norm_num [Vec3.mk.injEq]
  have h2 : (⟨1, 1, 0⟩ : Vec3) ≠ ⟨0, 1, 0⟩ := by norm_num [Vec3.mk.injEq]
  have h3 : (⟨1, 1, 0⟩ : Vec3) ≠ ⟨0, 0, 1⟩ := by norm_num [Vec3.mk.injEq]
  exact ⟨⟨h1, h2, h3⟩, invalid_axis_falls_back_to_y plainJoint 1 _ h1 h2 h3⟩

/-- C6: the three accumulated rotation fields lie in the interval
(-pi, pi] at construction and stay there across every operation: every
write inside update_orientation goes through wrap_to_pi, the other
operations leave the fields untouched. -/
theorem rotations_always_wrapped :
    (∀ o t ax : Vec3, rotationsWrapped (mkDefaultJoint o t ax)) ∧
    (∀ (st : Joint) (p : Vec3), rotationsWrapped st →
      rotationsWrapped (update_position st p)) ∧
    (∀ (st : Joint) (a : ℝ) (ax : Vec3), rotationsWrapped st →
      rotationsWrapped (update_orientation st a ax)) ∧
    (∀ (st : Joint) (b : Bool), rotationsWrapped st →
      rotationsWrapped (set_joint_visibility st b)) ∧
    (∀ (rj : RotationalJoint) (θ : ℝ), rotationsWrapped rj.joint →
      rotationsWrapped (rj.rotate_joint θ).joint) := by
  refine ⟨?_, ?_, fun st a ax h => update_orientation_rotationsWrapped st a ax h, ?_, ?_⟩
  · intro o t ax
    refine ⟨⟨?_, ?_⟩, ⟨?_, ?_⟩, ⟨?_, ?_⟩⟩ <;>
      simp [mkDefaultJoint, update_reference_frame, neg_lt_zero, Real.pi_pos,
        Real.pi_pos.le]
  · intro st p h
    obtain ⟨⟨hx1, hx2⟩, ⟨hy1, hy2⟩, ⟨hz1, hz2⟩⟩ := h
    refine ⟨⟨?_, ?_⟩, ⟨?_, ?_⟩, ⟨?_, ?_⟩⟩ <;>
      simp [update_position, draw_graphic, hx1, hx2, hy1, hy2, hz1, hz2]
  · intro st b h
    obtain ⟨⟨hx1, hx2⟩, ⟨hy1, hy2⟩, ⟨hz1, hz2⟩⟩ := h
    refine ⟨⟨?_, ?_⟩, ⟨?_, ?_⟩, ⟨?_, ?_⟩⟩ <;>
      simp [hx1, hx2, hy1, hy2, hz1, hz2]
  · intro rj θ h
    exact update_orientation_rotationsWrapped _ _ _ h

/-- Witness for C6: the preservation parts applied at the concrete state
plainJoint, whose rotations are all 0. -/
theorem rotations_always_wrapped_witness :
    rotationsWrapped plainJoint ∧
    rotationsWrapped (update_orientation plainJoint 1 ⟨0, 1, 0⟩) := by
  have hp : rotationsWrapped plainJoint := by
    refine ⟨⟨?_, ?_⟩, ⟨?_, ?_⟩, ⟨?_, ?_⟩⟩ <;>
      simp [plainJoint, neg_lt_zero, Real.pi_pos, Real.pi_pos.le]
  exact ⟨hp, rotations_always_wrapped.2.2.1 plainJoint 1 ⟨0, 1, 0⟩ hp⟩

/-- C7: update_position is a pure translation: the origin becomes the new
position, the tip and the tracking point translate by the movement vector,
and the accumulated rotations, the frame vectors, the tracking direction
and the vector tip minus origin are unchanged. -/
theorem reposition_is_pure_translation (st : Joint) (p : Vec3) :
    (update_position st p).connect_from = p ∧
    (update_position st p).connect_to = st.connect_to + (p - st.connect_from) ∧
    (update_position st p).dir_pos = st.dir_pos + (p - st.connect_from) ∧
    (update_position st p).dir_axis = st.dir_axis ∧
    (update_position st p).x_rotation = st.x_rotation ∧
    (update_position st p).y_rotation = st.y_rotation ∧
    (update_position st p).z_rotation = st.z_rotation ∧
    (update_position st p).x_vector = st.x_vector ∧
    (update_position st p).y_vector = st.y_vector ∧
    (update_position st p).z_vector = st.z_vector ∧
    (update_position st p).connect_to - (update_position st p).connect_from
      = st.connect_to - st.connect_from := by
  refine ⟨update_position_connect_from st p, ?_, ?_, ?_, ?_, ?_, ?_, ?_, ?_, ?_, ?_⟩ <;>
    first
      | (simp [update_position, draw_graphic]; done)
      | (ext <;> simp [update_position, draw_graphic] <;> ring)

/-- C8: the rotate_joint operation of StaticJoint and of Gripper always
succeeds and changes nothing: the resulting state is the input state, so
origin, tip, axes, accumulated rotations and visibility are all
unchanged. -/
theorem static_and_gripper_rotate_joint_noop (st : Joint) (a : ℝ) :
    StaticJoint.rotate_joint st a = st ∧ Gripper.rotate_joint st a = st :=
  ⟨rfl, rfl⟩

/-- C9: the angle wrap used by all angle operations is total over the
reals, always lands in (-pi, pi], and is idempotent. -/
theorem wrap_to_pi_total_and_idempotent (a : ℝ) :
    (-Real.pi < wrap_to_pi a ∧ wrap_to_pi a ≤ Real.pi) ∧
    wrap_to_pi (wrap_to_pi a) = wrap_to_pi a :=
  ⟨wrap_to_pi_mem a, wrap_to_pi_idem a⟩

/-- C10: for a Robot built from an empty joint list, calling
set_robot_visibility with a flag different from the current one leaves
is_shown unchanged, because the write to is_shown sits inside the per
joint loop and the loop body never runs. -/
theorem empty_chain_visibility_unchanged (v : Bool)
    (h : v ≠ (mkRobot []).is_shown) :
    (set_robot_visibility (mkRobot []) v).is_shown = (mkRobot []).is_shown := by
  unfold set_robot_visibility
  rw [if_pos h]
  simp [mkRobot, position_joints]

/-- Witness for C10: the empty chain starts shown, so hiding it is a flag
change, and still is_shown stays true. -/
theorem empty_chain_visibility_unchanged_witness :
    (false ≠ (mkRobot []).is_shown) ∧
    (set_robot_visibility (mkRobot []) false).is_shown = (mkRobot []).is_shown := by
  have h : false ≠ (mkRobot []).is_shown := by simp [mkRobot]
  exact ⟨h, empty_chain_visibility_unchanged false h⟩
